import Mathlib

/-!
Shallow embedding of the `shutdown` Go package (github.com/icza/shutdown).

The package is a process-wide shutdown coordination primitive:

* `sigch = make(chan os.Signal, 1)` — a capacity-1 intake queue; the Go
  signal runtime relays the subscribed signals (SIGTERM, SIGINT) into it
  with a non-blocking send, and `InitiateManual` performs the same
  non-blocking send of a synthetic SIGTERM.
* `Context, cancel = context.WithCancel(context.Background())` and
  `C <-chan struct{} = Context.Done()` — the shutdown event: `C` is closed
  exactly when the context is cancelled.
* `init` spawns the trigger-dispatcher goroutine: one receive `s := <-sigch`,
  a log line naming `s`, `cancel()`, and a deferred `signal.Stop(sigch)`.
* `InitiateManual` — non-blocking send of `syscall.SIGTERM` into `sigch`.
* `Initiated` — non-blocking select on `<-C`, returning whether `C` is closed.
* `Wg = &sync.WaitGroup{}` — the completion tracker (stdlib semantics:
  `Add`/`Done` with a panic when the counter would go negative).

We model the package state as an explicit record and each concurrently
observable atomic action (delivery of an OS signal, a call to
`InitiateManual`, completion of the dispatcher goroutine's body) as an
event of a labelled transition function `step`; an execution is a list of
events folded over `step` from `initialState`.
-/

namespace Shutdown

/-- OS signals relevant to the package: `syscall.SIGTERM`, `syscall.SIGINT`,
and a representative signal it does not subscribe to (`SIGHUP`). -/
inductive Sig where
  | term
  | int
  | hup
  deriving DecidableEq, Repr

/-- The signal set passed at package init: `signal.Notify(sigch, syscall.SIGTERM, syscall.SIGINT)`. -/
def notifiedSignals : List Sig := [Sig.term, Sig.int]

/-- Capacity of `sigch`: `make(chan os.Signal, 1)`. -/
def sigchCap : Nat := 1

/-- Package state.

* `subscribed` — whether `signal.Notify`'s subscription is still active
  (`signal.Stop(sigch)` has not yet run).
* `queue` — contents of the buffered channel `sigch` (length ≤ `sigchCap`).
* `fired` — whether the `Context` has been cancelled, i.e. the channel
  `C = Context.Done()` is closed.
* `reason` — the signal value the dispatcher received (`s := <-sigch`),
  observable in its log line; `none` while the dispatcher still blocks.
* `dispatcherDone` — whether the dispatcher goroutine has completed
  (its single receive, `cancel()`, and `signal.Stop` have all run).
* `defaulted` — OS signals that were not intercepted by the package and
  fell through to default OS handling. -/
structure State where
  subscribed : Bool
  queue : List Sig
  fired : Bool
  reason : Option Sig
  dispatcherDone : Bool
  defaulted : List Sig
  deriving DecidableEq, Repr

/-- Non-blocking send into `sigch`: enqueue when the buffer has room,
drop the value otherwise; the sender is never suspended
(`select { case sigch <- s: default: }`, and the signal runtime's
delivery into a channel registered with `signal.Notify`). -/
def trySend (s : Sig) (st : State) : State :=
  if st.queue.length < sigchCap then { st with queue := st.queue ++ [s] } else st

/-- State right after package init: subscription registered, empty buffer,
context not cancelled, dispatcher goroutine spawned but not yet past its
receive. -/
def initialState : State :=
  { subscribed := true
    queue := []
    fired := false
    reason := none
    dispatcherDone := false
    defaulted := [] }

/-- `cancel` from `context.WithCancel`: closes the done channel on the first
call; later calls find the context already cancelled and do nothing. -/
def cancel (st : State) : State :=
  if st.fired then st else { st with fired := true }

/-- Atomic actions of the system, from the point of view of the package
state: the OS delivering a signal to the process, a call to
`InitiateManual`, and the dispatcher goroutine's body completing
(`s := <-sigch; log…; cancel(); signal.Stop(sigch)`). -/
inductive Event where
  | osSignal (s : Sig)
  | initiateManual
  | dispatch
  deriving DecidableEq, Repr

/-- `InitiateManual`: non-blocking send of a synthetic `syscall.SIGTERM`
into `sigch`. -/
def initiateManualStep (st : State) : State :=
  trySend Sig.term st

/-- One atomic action.

* `osSignal s`: while the subscription is active and `s` is in the
  notified set, the signal runtime relays `s` into `sigch` with a
  non-blocking send; otherwise the signal receives default OS handling.
* `initiateManual`: `InitiateManual`'s non-blocking send of SIGTERM.
* `dispatch`: the dispatcher goroutine's receive completes — possible only
  while the goroutine is still running and the buffer is nonempty — after
  which it records the received value (log), runs `cancel()` and the
  deferred `signal.Stop(sigch)`, and exits. -/
def step (st : State) : Event → State
  | .osSignal s =>
      if st.subscribed = true ∧ s ∈ notifiedSignals then trySend s st
      else { st with defaulted := st.defaulted ++ [s] }
  | .initiateManual => initiateManualStep st
  | .dispatch =>
      if st.dispatcherDone then st
      else
        match st.queue with
        | [] => st
        | s :: q =>
            let st1 := cancel { st with queue := q, reason := some s }
            { st1 with subscribed := false, dispatcherDone := true }

/-- Run an execution: fold the events over `step`. -/
def run (st : State) (tr : List Event) : State :=
  tr.foldl step st

/-- Non-blocking receive from the closed-on-cancel channel
`C = Context.Done()`: ready exactly when the channel is closed (nothing is
ever sent on it; it is only closed). -/
def pollDone (st : State) : Option Unit :=
  if st.fired then some () else none

/-- `Initiated`: `select { case <-C: return true; default: }; return false`. -/
def Initiated (st : State) : Bool :=
  match pollDone st with
  | some _ => true
  | none => false

/-- Is the channel `C = Context.Done()` closed? -/
def ctxDoneClosed (st : State) : Bool := st.fired

/-- `context.Canceled`, the only error value `Context.Err()` can return here. -/
inductive CtxErr where
  | canceled
  deriving DecidableEq, Repr

/-- `Context.Err()`: `nil` (`none`) before cancellation, the fixed error
`context.Canceled` from the moment `cancel()` runs. -/
def ctxErr (st : State) : Option CtxErr :=
  if st.fired then some CtxErr.canceled else none

/-- Number of pending→fired transitions of the shutdown event along an
execution. -/
def firesCount (st : State) : List Event → Nat
  | [] => 0
  | e :: tr =>
      (if st.fired = false ∧ (step st e).fired = true then 1 else 0) + firesCount (step st e) tr

/-- Events that attempt to trigger the shutdown: the OS-signal path (for a
subscribed signal) and `InitiateManual`. -/
def fireAttempt : Event → Prop
  | .osSignal s => s ∈ notifiedSignals
  | .initiateManual => True
  | .dispatch => False

instance : DecidablePred fireAttempt := by
  intro e
  cases e <;> simp [fireAttempt] <;> infer_instance

/-- Inductive invariant of the package state: the subscription is active
exactly while the dispatcher goroutine is still running, the context is
cancelled exactly when the dispatcher has finished, the buffer respects
its capacity, and a cancelled context comes with a received signal. -/
def Inv (st : State) : Prop :=
  st.subscribed = !st.dispatcherDone ∧
  st.fired = st.dispatcherDone ∧
  st.queue.length ≤ sigchCap ∧
  (st.fired = true → st.reason.isSome = true)

instance : DecidablePred Inv := by
  intro st
  unfold Inv
  infer_instance

/-- A trigger is pending (a request sits in the buffer with the dispatcher
still running) or the event has already fired. -/
def pendingOrFired (st : State) : Prop :=
  (st.queue ≠ [] ∧ st.dispatcherDone = false) ∨ st.fired = true

instance : DecidablePred pendingOrFired := by
  intro st
  unfold pendingOrFired
  infer_instance

/-! ## The completion tracker (`Wg = &sync.WaitGroup{}`)

Modelled from `sync.WaitGroup`'s documented semantics: a counter changed
by `Add(delta)`; `Done() = Add(-1)`; driving the counter negative panics
with "sync: negative WaitGroup counter". -/

/-- `WaitGroup.Add(delta)` on counter `n`: panics (error) when the counter
would go negative, otherwise returns the new counter. -/
def wgAdd (n delta : Int) : Except String Int :=
  if n + delta < 0 then Except.error "sync: negative WaitGroup counter"
  else Except.ok (n + delta)

/-- `WaitGroup.Done()` is `Add(-1)`. -/
def wgDone (n : Int) : Except String Int :=
  wgAdd n (-1)

/-- `WaitGroup.Wait()` returns (rather than blocks) exactly when the
counter is zero. -/
def wgWaitReturns (n : Int) : Bool :=
  n = 0

/-- Registration/deregistration calls on the tracker. -/
inductive WgOp where
  | add (k : Int)
  | done
  deriving DecidableEq, Repr

/-- Apply one registration/deregistration call to the counter. -/
def wgApply (n : Int) : WgOp → Except String Int
  | .add k => wgAdd n k
  | .done => wgDone n

/-- Run a sequence of `Add`/`Done` calls from counter `n`; a panic aborts
the run. -/
def wgRun (n : Int) : List WgOp → Except String Int
  | [] => Except.ok n
  | op :: ops =>
      match wgApply n op with
      | Except.ok m => wgRun m ops
      | Except.error e => Except.error e

/-! ## General lemmas about `run` and `step` -/

lemma run_nil (st : State) : run st [] = st := rfl

lemma run_cons (st : State) (e : Event) (tr : List Event) :
    run st (e :: tr) = run (step st e) tr := rfl

lemma run_append (st : State) (tr tr' : List Event) :
    run st (tr ++ tr') = run (run st tr) tr' := by
  simp [run, List.foldl_append]

lemma trySend_fired (s : Sig) (st : State) : (trySend s st).fired = st.fired := by
  unfold trySend
  split <;> rfl

lemma trySend_reason (s : Sig) (st : State) : (trySend s st).reason = st.reason := by
  unfold trySend
  split <;> rfl

lemma trySend_subscribed (s : Sig) (st : State) :
    (trySend s st).subscribed = st.subscribed := by
  unfold trySend
  split <;> rfl

lemma trySend_dispatcherDone (s : Sig) (st : State) :
    (trySend s st).dispatcherDone = st.dispatcherDone := by
  unfold trySend
  split <;> rfl

lemma trySend_defaulted (s : Sig) (st : State) :
    (trySend s st).defaulted = st.defaulted := by
  unfold trySend
  split <;> rfl

lemma step_fired_mono (st : State) (e : Event) (h : st.fired = true) :
    (step st e).fired = true := by
  cases e with
  | osSignal s =>
      simp only [step]
      split
      · rw [trySend_fired]; exact h
      · exact h
  | initiateManual =>
      simp only [step, initiateManualStep]
      rw [trySend_fired]; exact h
  | dispatch =>
      simp only [step]
      split
      · exact h
      · split
        · exact h
        · simp [cancel, h]

lemma run_fired_mono (tr : List Event) (st : State) (h : st.fired = true) :
    (run st tr).fired = true := by
  induction tr generalizing st with
  | nil => exact h
  | cons e tr ih => exact ih (step st e) (step_fired_mono st e h)

lemma step_fired_new (st : State) (e : Event) (h : (step st e).fired = true) :
    st.fired = true ∨ e = Event.dispatch := by
  cases e with
  | osSignal s =>
      left
      simp only [step] at h
      split at h
      · rw [trySend_fired] at h; exact h
      · exact h
  | initiateManual =>
      left
      simp only [step, initiateManualStep] at h
      rw [trySend_fired] at h; exact h
  | dispatch => right; rfl

lemma inv_initialState : Inv initialState := by decide

lemma cancel_eq (st : State) : cancel st = { st with fired := true } := by
  unfold cancel
  split
  next h =>
    cases st
    simp_all
  next h => rfl

lemma trySend_of_empty {st : State} (s : Sig) (h : st.queue = []) :
    trySend s st = { st with queue := [s] } := by
  unfold trySend
  rw [h]
  simp [sigchCap]

lemma trySend_of_nonempty {st : State} (s : Sig) (h : st.queue ≠ []) :
    trySend s st = st := by
  unfold trySend
  have : ¬ st.queue.length < sigchCap := by
    have := List.length_pos.mpr h
    simp only [sigchCap]
    omega
  rw [if_neg this]

lemma trySend_queue_ne_nil (s : Sig) (st : State) : (trySend s st).queue ≠ [] := by
  rcases h : st.queue with _ | ⟨a, q⟩
  · rw [trySend_of_empty s h]
    simp
  · rw [trySend_of_nonempty s (by rw [h]; simp), h]
    simp

lemma step_osSignal_relay {st : State} {s : Sig}
    (hs : st.subscribed = true) (hm : s ∈ notifiedSignals) :
    step st (Event.osSignal s) = trySend s st := by
  simp only [step]
  rw [if_pos ⟨hs, hm⟩]

lemma step_osSignal_default {st : State} {s : Sig}
    (h : ¬ (st.subscribed = true ∧ s ∈ notifiedSignals)) :
    step st (Event.osSignal s) = { st with defaulted := st.defaulted ++ [s] } := by
  simp only [step]
  rw [if_neg h]

lemma step_initiateManual_eq (st : State) :
    step st Event.initiateManual = trySend Sig.term st := rfl

lemma step_dispatch_done {st : State} (h : st.dispatcherDone = true) :
    step st Event.dispatch = st := by
  simp only [step]
  rw [if_pos h]

lemma step_dispatch_blocked {st : State} (hd : st.dispatcherDone = false)
    (hq : st.queue = []) : step st Event.dispatch = st := by
  simp only [step]
  rw [if_neg (by simp [hd]), hq]

lemma step_dispatch_ready {st : State} {s : Sig} {q : List Sig}
    (hd : st.dispatcherDone = false) (hq : st.queue = s :: q) :
    step st Event.dispatch =
      { subscribed := false, queue := q, fired := true, reason := some s,
        dispatcherDone := true, defaulted := st.defaulted } := by
  simp only [step]
  rw [if_neg (by simp [hd]), hq]
  simp [cancel_eq]

lemma trySend_inv {st : State} (s : Sig) (h : Inv st) : Inv (trySend s st) := by
  obtain ⟨h1, h2, h3, h4⟩ := h
  rcases hq : st.queue with _ | ⟨a, q⟩
  · rw [trySend_of_empty s hq]
    exact ⟨h1, h2, by simp [sigchCap], h4⟩
  · rw [trySend_of_nonempty s (by rw [hq]; simp)]
    exact ⟨h1, h2, h3, h4⟩

lemma step_inv {st : State} (e : Event) (h : Inv st) : Inv (step st e) := by
  cases e with
  | osSignal s =>
      by_cases hc : st.subscribed = true ∧ s ∈ notifiedSignals
      · rw [step_osSignal_relay hc.1 hc.2]
        exact trySend_inv s h
      · rw [step_osSignal_default hc]
        exact h
  | initiateManual =>
      rw [step_initiateManual_eq]
      exact trySend_inv Sig.term h
  | dispatch =>
      obtain ⟨h1, h2, h3, h4⟩ := h
      rcases hd : st.dispatcherDone with _ | _
      · rcases hq : st.queue with _ | ⟨a, q⟩
        · rw [step_dispatch_blocked hd hq]
          exact ⟨h1, h2, h3, h4⟩
        · rw [step_dispatch_ready hd hq]
          refine ⟨rfl, rfl, ?_, by simp⟩
          have : (a :: q).length ≤ sigchCap := hq ▸ h3
          simp only [List.length_cons] at this
          simp only []
          omega
      · rw [step_dispatch_done hd]
        exact ⟨h1, h2, h3, h4⟩

lemma run_inv {st : State} (tr : List Event) (h : Inv st) : Inv (run st tr) := by
  induction tr generalizing st with
  | nil => exact h
  | cons e tr ih => exact ih (step_inv e h)

lemma firesCount_spec (tr : List Event) (st : State) :
    firesCount st tr =
      if st.fired = false ∧ (run st tr).fired = true then 1 else 0 := by
  induction tr generalizing st with
  | nil =>
      simp only [firesCount, run_nil]
      split

      next h => exact absurd h.2 (by simp [h.1])
      next h => rfl
  | cons e tr ih =>
      simp only [firesCount, run_cons, ih (step st e)]
      by_cases hst : st.fired = true
      · have h1 : (step st e).fired = true := step_fired_mono st e hst
        have h2 : (run (step st e) tr).fired = true := run_fired_mono tr _ h1
        simp [hst, h1, h2]
      · have hst' : st.fired = false := by
          cases hb : st.fired
          · rfl
          · exact absurd hb hst
        by_cases hse : (step st e).fired = true
        · have h2 : (run (step st e) tr).fired = true := run_fired_mono tr _ hse
          simp [hst', hse, h2]
        · have hse' : (step st e).fired = false := by
            cases hb : (step st e).fired
            · rfl
            · exact absurd hb hse
          simp [hst', hse']

lemma firesCount_le_one (tr : List Event) (st : State) : firesCount st tr ≤ 1 := by
  rw [firesCount_spec]
  split <;> omega

lemma pendingOrFired_step {st : State} (e : Event) (h : pendingOrFired st) :
    pendingOrFired (step st e) := by
  rcases h with ⟨hq, hd⟩ | hf
  · cases e with
    | osSignal s =>
        by_cases hc : st.subscribed = true ∧ s ∈ notifiedSignals
        · rw [step_osSignal_relay hc.1 hc.2]
          exact Or.inl ⟨trySend_queue_ne_nil s st, by rw [trySend_dispatcherDone]; exact hd⟩
        · rw [step_osSignal_default hc]
          exact Or.inl ⟨hq, hd⟩
    | initiateManual =>
        rw [step_initiateManual_eq]
        exact Or.inl ⟨trySend_queue_ne_nil Sig.term st, by rw [trySend_dispatcherDone]; exact hd⟩
    | dispatch =>
        rcases hq' : st.queue with _ | ⟨a, q⟩
        · exact absurd hq' hq
        · rw [step_dispatch_ready hd hq']
          exact Or.inr rfl
  · exact Or.inr (step_fired_mono st e hf)

lemma dispatch_fires {st : State} (h : pendingOrFired st) :
    (step st Event.dispatch).fired = true := by
  rcases h with ⟨hq, hd⟩ | hf
  · rcases hq' : st.queue with _ | ⟨a, q⟩
    · exact absurd hq' hq
    · rw [step_dispatch_ready hd hq']
  · exact step_fired_mono st Event.dispatch hf

lemma pendingOrFired_run_dispatch {st : State} {tr : List Event}
    (h : pendingOrFired st) (hmem : Event.dispatch ∈ tr) :
    (run st tr).fired = true := by
  induction tr generalizing st with
  | nil => cases hmem
  | cons e tr ih =>
      rw [run_cons]
      rcases List.mem_cons.mp hmem with he | he
      · subst he
        exact run_fired_mono tr _ (dispatch_fires h)
      · exact ih (pendingOrFired_step e h) he

lemma fireAttempt_pendingOrFired {st : State} {e : Event}
    (hinv : Inv st) (ha : fireAttempt e) : pendingOrFired (step st e) := by
  by_cases hf : st.fired = true
  · exact Or.inr (step_fired_mono st e hf)
  · obtain ⟨h1, h2, _, _⟩ := hinv
    have hd : st.dispatcherDone = false := by
      cases hb : st.dispatcherDone
      · rfl
      · rw [hb] at h2; exact absurd h2 hf
    have hs : st.subscribed = true := by rw [h1, hd]; rfl
    cases e with
    | osSignal s =>
        rw [step_osSignal_relay hs ha]
        exact Or.inl ⟨trySend_queue_ne_nil s st, by rw [trySend_dispatcherDone]; exact hd⟩
    | initiateManual =>
        rw [step_initiateManual_eq]
        exact Or.inl ⟨trySend_queue_ne_nil Sig.term st, by rw [trySend_dispatcherDone]; exact hd⟩
    | dispatch => exact absurd ha (by simp [fireAttempt])

lemma step_reason_stable {st : State} (e : Event) (hinv : Inv st)
    (hf : st.fired = true) : (step st e).reason = st.reason := by
  cases e with
  | osSignal s =>
      by_cases hc : st.subscribed = true ∧ s ∈ notifiedSignals
      · rw [step_osSignal_relay hc.1 hc.2, trySend_reason]
      · rw [step_osSignal_default hc]
  | initiateManual =>
      rw [step_initiateManual_eq, trySend_reason]
  | dispatch =>
      have hd : st.dispatcherDone = true := hinv.2.1 ▸ hf
      rw [step_dispatch_done hd]

lemma run_reason_stable {st : State} (tr : List Event) (hinv : Inv st)
    (hf : st.fired = true) : (run st tr).reason = st.reason := by
  induction tr generalizing st with
  | nil => rfl
  | cons e tr ih =>
      rw [run_cons, ih (step_inv e hinv) (step_fired_mono st e hf),
        step_reason_stable e hinv hf]

lemma first_request_served {st : State} {s : Sig} (tr : List Event)
    (hinv : Inv st) (hq : st.queue = [s]) (hd : st.dispatcherDone = false)
    (hmem : Event.dispatch ∈ tr) :
    (run st tr).fired = true ∧ (run st tr).reason = some s := by
  induction tr generalizing st with
  | nil => cases hmem
  | cons e tr ih =>
      rw [run_cons]
      cases e with
      | dispatch =>
          rw [step_dispatch_ready hd hq]
          have hinv' : Inv (step st Event.dispatch) := step_inv Event.dispatch hinv
          rw [step_dispatch_ready hd hq] at hinv'
          exact ⟨run_fired_mono tr _ rfl, run_reason_stable tr hinv' rfl⟩
      | osSignal s' =>
          have he : Event.dispatch ∈ tr := by
            rcases List.mem_cons.mp hmem with he | he
            · cases he
            · exact he
          by_cases hc : st.subscribed = true ∧ s' ∈ notifiedSignals
          · rw [step_osSignal_relay hc.1 hc.2,
              trySend_of_nonempty s' (by rw [hq]; simp)]
            exact ih hinv hq hd he
          · rw [step_osSignal_default hc]
            exact ih ((step_osSignal_default hc) ▸ step_inv (Event.osSignal s') hinv)
              (by simpa using hq) (by simpa using hd) he
      | initiateManual =>
          have he : Event.dispatch ∈ tr := by
            rcases List.mem_cons.mp hmem with he | he
            · cases he
            · exact he
          rw [step_initiateManual_eq, trySend_of_nonempty Sig.term (by rw [hq]; simp)]
          exact ih hinv hq hd he

lemma step_frame_after_done {st : State} (e : Event) (hinv : Inv st)
    (hd : st.dispatcherDone = true) (hq : st.queue ≠ []) :
    (step st e).queue = st.queue ∧ (step st e).fired = st.fired ∧
      (step st e).reason = st.reason ∧ (step st e).dispatcherDone = true ∧
      (step st e).subscribed = st.subscribed := by
  have hs : st.subscribed = false := by rw [hinv.1, hd]; rfl
  cases e with
  | osSignal s =>
      rw [step_osSignal_default (by rw [hs]; simp)]
      exact ⟨rfl, rfl, rfl, hd, rfl⟩
  | initiateManual =>
      rw [step_initiateManual_eq, trySend_of_nonempty Sig.term hq]
      exact ⟨rfl, rfl, rfl, hd, rfl⟩
  | dispatch =>
      rw [step_dispatch_done hd]
      exact ⟨rfl, rfl, rfl, hd, rfl⟩

lemma run_frame_after_done {st : State} (tr : List Event) (hinv : Inv st)
    (hd : st.dispatcherDone = true) (hq : st.queue ≠ []) :
    (run st tr).queue = st.queue ∧ (run st tr).fired = st.fired ∧
      (run st tr).reason = st.reason ∧ (run st tr).dispatcherDone = true := by
  induction tr generalizing st with
  | nil => exact ⟨rfl, rfl, rfl, hd⟩
  | cons e tr ih =>
      obtain ⟨f1, f2, f3, f4, _⟩ := step_frame_after_done e hinv hd hq
      rw [run_cons]
      obtain ⟨g1, g2, g3, g4⟩ := ih (step_inv e hinv) f4 (by rw [f1]; exact hq)
      exact ⟨by rw [g1, f1], by rw [g2, f2], by rw [g3, f3], g4⟩

lemma Initiated_eq_fired (st : State) : Initiated st = st.fired := by
  unfold Initiated pollDone
  cases h : st.fired <;> simp [h]

lemma cancel_idem (st : State) : cancel (cancel st) = cancel st := by
  simp [cancel_eq]

lemma cancel_iterate_of_fired (m : Nat) (st : State) :
    cancel^[m] (cancel st) = cancel st := by
  induction m with
  | zero => rfl
  | succ m ih => rw [Function.iterate_succ_apply, cancel_idem, ih]

lemma wgAdd_ok_nonneg {n k m : Int} (h : wgAdd n k = Except.ok m) : 0 ≤ m := by
  unfold wgAdd at h
  split at h
  next hk => cases h
  next hk =>
    cases h
    omega

lemma wgRun_nonneg (ops : List WgOp) :
    ∀ n m : Int, wgRun n ops = Except.ok m → 0 ≤ m ∨ m = n := by
  induction ops with
  | nil =>
      intro n m h
      right
      cases h
      rfl
  | cons op ops ih =>
      intro n m h
      simp only [wgRun] at h
      rcases op with k | _
      · simp only [wgApply] at h
        rcases hop : wgAdd n k with e | m'
        all_goals rw [hop] at h
        · cases h
        · rcases ih _ _ h with hm | hm
          · exact Or.inl hm
          · exact Or.inl (hm ▸ wgAdd_ok_nonneg hop)
      · simp only [wgApply, wgDone] at h
        rcases hop : wgAdd n (-1) with e | m'
        all_goals rw [hop] at h
        · cases h
        · rcases ih _ _ h with hm | hm
          · exact Or.inl hm
          · exact Or.inl (hm ▸ wgAdd_ok_nonneg hop)

/-! ## Claim theorems -/

/-- C1: In every execution, the shutdown event transitions pending→fired at
most once, and exactly once as soon as the trace holds a fire attempt (an
OS signal on the subscribed set or an `InitiateManual` call) followed by
the completion of the dispatcher's receive; `Initiated()` is `false` at
every point before the transition and `true` at every point after it,
forever. -/
theorem single_fire :
    (∀ tr : List Event,
        firesCount initialState tr =
          if (run initialState tr).fired = true then 1 else 0) ∧
    (∀ tr : List Event, firesCount initialState tr ≤ 1) ∧
    Initiated initialState = false ∧
    (∀ pre suf : List Event, Initiated (run initialState pre) = true →
        Initiated (run initialState (pre ++ suf)) = true) ∧
    (∀ pre suf : List Event, (run initialState (pre ++ suf)).fired = false →
        Initiated (run initialState pre) = false) ∧
    (∀ pre suf : List Event, ∀ e : Event, fireAttempt e → Event.dispatch ∈ suf →
        (run initialState (pre ++ e :: suf)).fired = true ∧
        firesCount initialState (pre ++ e :: suf) = 1) := by
  refine ⟨?_, ?_, rfl, ?_, ?_, ?_⟩
  · intro tr
    rw [firesCount_spec]
    have h0 : initialState.fired = false := rfl
    simp [h0]
  · intro tr
    exact firesCount_le_one tr initialState
  · intro pre suf h
    rw [Initiated_eq_fired] at h
    rw [run_append, Initiated_eq_fired]
    exact run_fired_mono suf _ h
  · intro pre suf h
    rw [Initiated_eq_fired]
    cases hb : (run initialState pre).fired
    · rfl
    · rw [run_append] at h
      rw [run_fired_mono suf _ hb] at h
      cases h
  · intro pre suf e ha hmem
    have hinv : Inv (run initialState pre) := run_inv pre inv_initialState
    have hp : pendingOrFired (step (run initialState pre) e) :=
      fireAttempt_pendingOrFired hinv ha
    have hfired : (run initialState (pre ++ e :: suf)).fired = true := by
      rw [run_append, run_cons]
      exact pendingOrFired_run_dispatch hp hmem
    refine ⟨hfired, ?_⟩
    rw [firesCount_spec]
    have h0 : initialState.fired = false := rfl
    simp [h0, hfired]

/-- C1 witness: a manual trigger followed by the dispatcher firing yields a
fired event with exactly one pending→fired transition. -/
theorem single_fire_witness :
    (run initialState ([] ++ Event.initiateManual :: [Event.dispatch])).fired = true ∧
    firesCount initialState ([] ++ Event.initiateManual :: [Event.dispatch]) = 1 :=
  single_fire.2.2.2.2.2 [] [Event.dispatch] Event.initiateManual
    (by simp [fireAttempt]) (by simp)

/-- C2: `Initiated()` is a non-blocking poll of the done channel: it equals
the event's fired flag, is `false` at package init, stays `true` along any
continuation once `true`, and a caller observing `true` is guaranteed the
event has fired with the reason and cancelled context already set. -/
theorem initiated_nonblocking_poll :
    (∀ st : State, Initiated st = st.fired) ∧
    Initiated initialState = false ∧
    (∀ st : State, ∀ tr : List Event, Initiated st = true →
        Initiated (run st tr) = true) ∧
    (∀ st : State, Inv st → Initiated st = true →
        st.fired = true ∧ st.reason.isSome = true ∧
        ctxErr st = some CtxErr.canceled) := by
  refine ⟨Initiated_eq_fired, rfl, ?_, ?_⟩
  · intro st tr h
    rw [Initiated_eq_fired] at h
    rw [Initiated_eq_fired]
    exact run_fired_mono tr st h
  · intro st hinv h
    rw [Initiated_eq_fired] at h
    refine ⟨h, hinv.2.2.2 h, ?_⟩
    unfold ctxErr
    rw [if_pos h]

/-- C2 witness: after a manual trigger and the dispatcher's receive,
`Initiated` reports `true` with the reason and context error set. -/
theorem initiated_nonblocking_poll_witness :
    (run initialState [Event.initiateManual, Event.dispatch]).fired = true ∧
    (run initialState [Event.initiateManual, Event.dispatch]).reason.isSome = true ∧
    ctxErr (run initialState [Event.initiateManual, Event.dispatch]) =
      some CtxErr.canceled :=
  initiated_nonblocking_poll.2.2.2
    (run initialState [Event.initiateManual, Event.dispatch]) (by decide) (by decide)

/-- C3: The fire operation (`cancel` of `context.WithCancel`) is
idempotent: firing an already-fired event is a no-op, repeating it any
positive number of times equals firing once, and every invocation leaves
the event fired. -/
theorem fire_idempotent :
    (∀ st : State, st.fired = true → cancel st = st) ∧
    (∀ st : State, cancel (cancel st) = cancel st) ∧
    (∀ st : State, ∀ n : Nat, 1 ≤ n → cancel^[n] st = cancel st) ∧
    (∀ st : State, (cancel st).fired = true) := by
  refine ⟨?_, cancel_idem, ?_, ?_⟩
  · intro st h
    unfold cancel
    rw [if_pos h]
  · intro st n hn
    obtain ⟨m, rfl⟩ : ∃ m, n = m + 1 := ⟨n - 1, by omega⟩
    rw [Function.iterate_succ_apply, cancel_iterate_of_fired]
  · intro st
    rw [cancel_eq]

/-- C3 witness: three applications of the fire operation coincide with
one, and firing the already-fired post-shutdown state changes nothing. -/
theorem fire_idempotent_witness :
    cancel^[3] initialState = cancel initialState ∧
    cancel (run initialState [Event.initiateManual, Event.dispatch]) =
      run initialState [Event.initiateManual, Event.dispatch] :=
  ⟨fire_idempotent.2.2.1 initialState 3 (by decide),
   fire_idempotent.1 (run initialState [Event.initiateManual, Event.dispatch])
     (by decide)⟩

/-- C4: The intake queue has capacity one and every send into it — manual
or from the signal path — is non-blocking: an empty slot accepts the
request, an occupied slot drops it, and the buffer never exceeds one
element along any execution satisfying the invariant. -/
theorem intake_queue_nonblocking :
    sigchCap = 1 ∧
    (∀ st : State, ∀ s : Sig, st.queue = [] →
        (trySend s st).queue = [s]) ∧
    (∀ st : State, ∀ s : Sig, st.queue ≠ [] → trySend s st = st) ∧
    (∀ st : State, ∀ s : Sig, st.subscribed = true → s ∈ notifiedSignals →
        step st (Event.osSignal s) = trySend s st) ∧
    (∀ st : State, step st Event.initiateManual = trySend Sig.term st) ∧
    (∀ st : State, ∀ tr : List Event, Inv st →
        (run st tr).queue.length ≤ sigchCap) := by
  refine ⟨rfl, ?_, ?_, ?_, ?_, ?_⟩
  · intro st s h
    rw [trySend_of_empty s h]
  · intro st s h
    exact trySend_of_nonempty s h
  · intro st s hs hm
    exact step_osSignal_relay hs hm
  · intro st
    rfl
  · intro st tr hinv
    exact (run_inv tr hinv).2.2.1

/-- C4 witness: the first send fills the empty slot; a second send finds
the slot occupied and is dropped. -/
theorem intake_queue_nonblocking_witness :
    (trySend Sig.term initialState).queue = [Sig.term] ∧
    trySend Sig.int (trySend Sig.term initialState) =
      trySend Sig.term initialState ∧
    (run initialState [Event.initiateManual, Event.osSignal Sig.int]).queue.length ≤
      sigchCap :=
  ⟨intake_queue_nonblocking.2.1 initialState Sig.term rfl,
   intake_queue_nonblocking.2.2.1 (trySend Sig.term initialState) Sig.int (by decide),
   intake_queue_nonblocking.2.2.2.2.2 initialState
     [Event.initiateManual, Event.osSignal Sig.int] (by decide)⟩

/-- C5: A request buffered before the dispatcher's receive is retained;
once the dispatcher's receive completes it obtains that very request and
fires the event with it as reason, and every current and later observer
sees the fired state. -/
theorem no_missed_trigger :
    ∀ st : State, ∀ s : Sig, ∀ tr tr' : List Event,
      Inv st → st.queue = [s] → st.dispatcherDone = false →
      Event.dispatch ∈ tr →
      (run st tr).fired = true ∧ (run st tr).reason = some s ∧
      Initiated (run st tr) = true ∧ (run (run st tr) tr').fired = true := by
  intro st s tr tr' hinv hq hd hmem
  obtain ⟨h1, h2⟩ := first_request_served tr hinv hq hd hmem
  exact ⟨h1, h2, by rw [Initiated_eq_fired]; exact h1, run_fired_mono tr' _ h1⟩

/-- C5 witness: a manual request buffered at init survives an ignored
duplicate and is obtained by the dispatcher, firing the event. -/
theorem no_missed_trigger_witness :
    (run (step initialState Event.initiateManual)
        [Event.initiateManual, Event.dispatch]).fired = true ∧
    (run (step initialState Event.initiateManual)
        [Event.initiateManual, Event.dispatch]).reason = some Sig.term :=
  ⟨(no_missed_trigger (step initialState Event.initiateManual) Sig.term
      [Event.initiateManual, Event.dispatch] [] (by decide) (by decide) (by decide)
      (by decide)).1,
   (no_missed_trigger (step initialState Event.initiateManual) Sig.term
      [Event.initiateManual, Event.dispatch] [] (by decide) (by decide) (by decide)
      (by decide)).2.1⟩

/-- C6: The adapter subscribes at init to exactly SIGTERM and SIGINT; the
dispatcher performs one receive, fires the event, and unsubscribes, after
which an OS signal is no longer intercepted and falls through to default
handling; a non-subscribed signal is never intercepted at all. -/
theorem signal_adapter_single_shot :
    notifiedSignals = [Sig.term, Sig.int] ∧
    initialState.subscribed = true ∧
    (∀ st : State, ∀ s : Sig, s ∉ notifiedSignals →
        step st (Event.osSignal s) =
          { st with defaulted := st.defaulted ++ [s] }) ∧
    (∀ st : State, ∀ s : Sig, ∀ q : List Sig,
        st.dispatcherDone = false → st.queue = s :: q →
        step st Event.dispatch =
          { subscribed := false, queue := q, fired := true, reason := some s,
            dispatcherDone := true, defaulted := st.defaulted }) ∧
    (∀ st : State, st.dispatcherDone = true → step st Event.dispatch = st) ∧
    (∀ st : State, ∀ s : Sig, Inv st → st.fired = true →
        step st (Event.osSignal s) =
          { st with defaulted := st.defaulted ++ [s] }) := by
  refine ⟨rfl, rfl, ?_, ?_, ?_, ?_⟩
  · intro st s hm
    exact step_osSignal_default (by simp [hm])
  · intro st s q hd hq
    exact step_dispatch_ready hd hq
  · intro st hd
    exact step_dispatch_done hd
  · intro st s hinv hf
    have hd : st.dispatcherDone = true := hinv.2.1 ▸ hf
    have hs : st.subscribed = false := by rw [hinv.1, hd]; rfl
    exact step_osSignal_default (by simp [hs])

/-- C6 witness: the dispatcher's single receive fires the event and
unsubscribes; a SIGTERM arriving afterwards takes default OS handling. -/
theorem signal_adapter_single_shot_witness :
    step { subscribed := true, queue := [Sig.int], fired := false,
           reason := none, dispatcherDone := false, defaulted := [] }
        Event.dispatch =
      { subscribed := false, queue := [], fired := true, reason := some Sig.int,
        dispatcherDone := true, defaulted := [] } ∧
    step (run initialState [Event.osSignal Sig.int, Event.dispatch])
        (Event.osSignal Sig.term) =
      { subscribed := false, queue := [], fired := true, reason := some Sig.int,
        dispatcherDone := true, defaulted := [Sig.term] } :=
  ⟨signal_adapter_single_shot.2.2.2.1
      { subscribed := true, queue := [Sig.int], fired := false, reason := none,
        dispatcherDone := false, defaulted := [] } Sig.int [] rfl rfl,
   signal_adapter_single_shot.2.2.2.2.2
      (run initialState [Event.osSignal Sig.int, Event.dispatch]) Sig.term
      (by decide) (by decide)⟩

/-- C7: driving the completion tracker's counter below zero through
`Done()` produces the fatal `sync: negative WaitGroup counter` panic, never
a silent clamp, and every non-failing run of `Add`/`Done` calls started at
a non-negative counter ends at a non-negative counter. -/
theorem done_below_zero_fatal :
    (∀ n : Int, n - 1 < 0 →
        wgDone n = Except.error "sync: negative WaitGroup counter") ∧
    (∀ n : Int, 0 ≤ n - 1 → wgDone n = Except.ok (n - 1)) ∧
    (∀ ops : List WgOp, ∀ n m : Int, 0 ≤ n →
        wgRun n ops = Except.ok m → 0 ≤ m) := by
  refine ⟨?_, ?_, ?_⟩
  · intro n h
    unfold wgDone wgAdd
    rw [if_pos (by omega)]
  · intro n h
    unfold wgDone wgAdd
    rw [if_neg (by omega)]
    congr 1
  · intro ops n m hn h
    rcases wgRun_nonneg ops n m h with hm | hm
    · exact hm
    · omega

/-- C7 witness: one `Done()` too many on a zero counter panics, while a
balanced run keeps the counter non-negative. -/
theorem done_below_zero_fatal_witness :
    wgDone 0 = Except.error "sync: negative WaitGroup counter" ∧
    (0 : Int) ≤ 1 :=
  ⟨done_below_zero_fatal.1 0 (by decide),
   done_below_zero_fatal.2.2 [WgOp.add 2, WgOp.done] 0 1 (by decide) rfl⟩

/-- C8: the dispatcher is the sole writer of the shutdown event: the only
action that can change the fired flag is the dispatcher's own receive;
OS signals and `InitiateManual` never change it, and no action unfires
it. -/
theorem dispatcher_sole_writer :
    (∀ st : State, ∀ e : Event, (step st e).fired = true →
        st.fired = true ∨ e = Event.dispatch) ∧
    (∀ st : State, ∀ e : Event, st.fired = true → (step st e).fired = true) ∧
    (∀ st : State, ∀ s : Sig, (step st (Event.osSignal s)).fired = st.fired) ∧
    (∀ st : State, (step st Event.initiateManual).fired = st.fired) := by
  refine ⟨step_fired_new, step_fired_mono, ?_, ?_⟩
  · intro st s
    by_cases hc : st.subscribed = true ∧ s ∈ notifiedSignals
    · rw [step_osSignal_relay hc.1 hc.2, trySend_fired]
    · rw [step_osSignal_default hc]
  · intro st
    rw [step_initiateManual_eq, trySend_fired]

/-- C8 witness: from a state with a buffered request, only the dispatcher's
receive turns the fired flag on. -/
theorem dispatcher_sole_writer_witness :
    ((step initialState Event.initiateManual).fired = true ∨
        Event.initiateManual = Event.dispatch) ∨
    (step (run initialState [Event.initiateManual, Event.dispatch])
        Event.initiateManual).fired = true :=
  Or.inr (dispatcher_sole_writer.2.1
    (run initialState [Event.initiateManual, Event.dispatch])
    Event.initiateManual (by decide))

/-- C9 counterexample: the context's queryable error value does not expose
which signal was received or that the trigger was manual: a SIGINT-driven
shutdown and a manual shutdown yield the same `Context.Err()` value even
though the dispatcher received different signals, and a SIGTERM-driven
shutdown is entirely indistinguishable from a manual one. -/
theorem ctx_reason_counterexample :
    ctxErr (run initialState [Event.osSignal Sig.int, Event.dispatch]) =
      ctxErr (run initialState [Event.initiateManual, Event.dispatch]) ∧
    (run initialState [Event.osSignal Sig.int, Event.dispatch]).reason ≠
      (run initialState [Event.initiateManual, Event.dispatch]).reason ∧
    run initialState [Event.osSignal Sig.term, Event.dispatch] =
      run initialState [Event.initiateManual, Event.dispatch] := by
  decide

/-- C9 (amended): the context's done state is bound 1:1 to the shutdown
event's fired state — `C` is exactly `Context.Done()`, so the context is
cancelled if and only if the event has fired — and once fired it exposes a
queryable error value, the fixed cancellation error, which is the same for
every trigger. -/
theorem ctx_bound_to_event :
    (∀ st : State, ctxDoneClosed st = st.fired) ∧
    (∀ st : State, Initiated st = ctxDoneClosed st) ∧
    (∀ st : State, (ctxErr st).isSome = st.fired) ∧
    (∀ st : State, st.fired = true → ctxErr st = some CtxErr.canceled) ∧
    (∀ st : State, st.fired = false → ctxErr st = none) ∧
    (∀ st st' : State, st.fired = true → st'.fired = true →
        ctxErr st = ctxErr st') := by
  refine ⟨fun _ => rfl, ?_, ?_, ?_, ?_, ?_⟩
  · intro st
    rw [Initiated_eq_fired]
    rfl
  · intro st
    unfold ctxErr
    cases h : st.fired <;> simp [h]
  · intro st h
    unfold ctxErr
    rw [if_pos h]
  · intro st h
    unfold ctxErr
    rw [if_neg (by simp [h])]
  · intro st st' h h'
    unfold ctxErr
    rw [if_pos h, if_pos h']

/-- C9 witness: after the dispatcher fires, the context error is set to the
cancellation error; before, it is nil. -/
theorem ctx_bound_to_event_witness :
    ctxErr (run initialState [Event.osSignal Sig.int, Event.dispatch]) =
      some CtxErr.canceled ∧
    ctxErr initialState = none :=
  ⟨ctx_bound_to_event.2.2.2.1
      (run initialState [Event.osSignal Sig.int, Event.dispatch]) (by decide),
   ctx_bound_to_event.2.2.2.2.1 initialState (by decide)⟩

/-- C10: once the event has fired (so, by the invariant, the dispatcher
goroutine has exited after its single receive), a further `InitiateManual`
call returns leaving every observable unchanged except possibly placing a
synthetic SIGTERM into the intake queue; the event stays fired with
`Initiated()` true, and along any continuation the dispatcher never
consumes the queued value and the fired state and reason persist. -/
theorem manual_after_fired_frame :
    ∀ st : State, Inv st → st.fired = true →
      (step st Event.initiateManual).fired = true ∧
      Initiated (step st Event.initiateManual) = true ∧
      (step st Event.initiateManual).reason = st.reason ∧
      (step st Event.initiateManual).dispatcherDone = st.dispatcherDone ∧
      (step st Event.initiateManual).subscribed = st.subscribed ∧
      (step st Event.initiateManual).defaulted = st.defaulted ∧
      (∀ tr : List Event,
        (run (step st Event.initiateManual) tr).fired = true ∧
        (run (step st Event.initiateManual) tr).queue =
          (step st Event.initiateManual).queue ∧
        (run (step st Event.initiateManual) tr).reason = st.reason ∧
        (run (step st Event.initiateManual) tr).dispatcherDone = true) := by
  intro st hinv hf
  have hstep : step st Event.initiateManual = trySend Sig.term st :=
    step_initiateManual_eq st
  have hf' : (step st Event.initiateManual).fired = true := by
    rw [hstep, trySend_fired]; exact hf
  have hinv' : Inv (step st Event.initiateManual) :=
    step_inv Event.initiateManual hinv
  have hd : st.dispatcherDone = true := hinv.2.1 ▸ hf
  have hd' : (step st Event.initiateManual).dispatcherDone = true := by
    rw [hstep, trySend_dispatcherDone]; exact hd
  have hq' : (step st Event.initiateManual).queue ≠ [] := by
    rw [hstep]; exact trySend_queue_ne_nil Sig.term st
  have hr : (step st Event.initiateManual).reason = st.reason := by
    rw [hstep, trySend_reason]
  refine ⟨hf', by rw [Initiated_eq_fired]; exact hf', hr,
    by rw [hstep, trySend_dispatcherDone],
    by rw [hstep, trySend_subscribed],
    by rw [hstep, trySend_defaulted], ?_⟩
  intro tr
  obtain ⟨g1, g2, g3, g4⟩ := run_frame_after_done tr hinv' hd' hq'
  exact ⟨by rw [g2]; exact hf', g1, by rw [g3, hr], g4⟩

/-- C10 witness: after a SIGINT-driven shutdown, a late `InitiateManual`
leaves the event fired with the original reason, and its queued synthetic
SIGTERM is still unconsumed after further events. -/
theorem manual_after_fired_frame_witness :
    (step (run initialState [Event.osSignal Sig.int, Event.dispatch])
        Event.initiateManual).fired = true ∧
    (run (step (run initialState [Event.osSignal Sig.int, Event.dispatch])
          Event.initiateManual)
        [Event.dispatch, Event.osSignal Sig.term]).queue =
      (step (run initialState [Event.osSignal Sig.int, Event.dispatch])
          Event.initiateManual).queue ∧
    (run (step (run initialState [Event.osSignal Sig.int, Event.dispatch])
          Event.initiateManual)
        [Event.dispatch, Event.osSignal Sig.term]).reason = some Sig.int :=
  ⟨(manual_after_fired_frame
      (run initialState [Event.osSignal Sig.int, Event.dispatch])
      (by decide) (by decide)).1,
   ((manual_after_fired_frame
      (run initialState [Event.osSignal Sig.int, Event.dispatch])
      (by decide) (by decide)).2.2.2.2.2.2
      [Event.dispatch, Event.osSignal Sig.term]).2.1,
   ((manual_after_fired_frame
      (run initialState [Event.osSignal Sig.int, Event.dispatch])
      (by decide) (by decide)).2.2.2.2.2.2
      [Event.dispatch, Event.osSignal Sig.term]).2.2.1⟩

end Shutdown
